import Mathlib

/-!
Verification of the gh-proxy request pipeline: a shallow embedding of the
core data path (API-key auth, token-bucket rate limiter, response cache,
donated-credential selection/revocation, header filtering, response
emission), translated from `internal/server/server.go`,
`internal/cache/cache.go` and `internal/github/client.go`, together with
theorems settling the behavioural claims about it.

Modelling conventions:
- Go byte slices are `List Nat`; instants are `ℚ` (seconds); database
  timestamps in the credential pool are `Int` (seconds relative to the
  Unix epoch, so that pre-epoch instants are expressible).
- SHA-256 hex digests and JSON `message`-field extraction are abstracted
  as function parameters (`hashStr`, `hashBytes`, `parseMsg`): the claims
  depend only on the same function being applied to equal inputs.
- Go `http.Header` maps are association lists of
  `(name, values)` pairs; Go canonicalises header names on every access,
  which for the properties at hand is the case-insensitive equivalence of
  names, modelled by comparing lowercased names.
-/

namespace GhProxy

/-! ## String utilities (Go `strings` package operations used by the code) -/

/-- Whether `pre` is a prefix of `l` (char-by-char). -/
def listPrefixOf : List Char → List Char → Bool
  | [], _ => true
  | _ :: _, [] => false
  | a :: as, b :: bs => a == b && listPrefixOf as bs

/-- Whether `sub` occurs contiguously inside `l` (Go `strings.Contains` on
char lists). -/
def listContainsSub (sub : List Char) : List Char → Bool
  | [] => listPrefixOf sub []
  | c :: rest => listPrefixOf sub (c :: rest) || listContainsSub sub rest

/-- Go `strings.Contains(s, sub)`. -/
def strContains (s sub : String) : Bool := listContainsSub sub.data s.data

/-- ASCII lower-casing of one character (the strings this code lower-cases
are ASCII header names, directives and error messages). -/
def lowerChar (c : Char) : Char :=
  if 'A' ≤ c && c ≤ 'Z' then Char.ofNat (c.toNat + 32) else c

/-- Go `strings.ToLower` (ASCII fragment). -/
def strToLower (s : String) : String := ⟨s.data.map lowerChar⟩

/-- Whitespace as Go `unicode.IsSpace` recognises it on ASCII input. -/
def isSpaceGo (c : Char) : Bool :=
  c == ' ' || c == '\t' || c == '\n' || c == '\r' ||
  c == Char.ofNat 11 || c == Char.ofNat 12

/-- Go `strings.TrimSpace` (server.go `parseAPIKey`). -/
def parseAPIKey (v : String) : String :=
  ⟨((v.data.dropWhile isSpaceGo).reverse.dropWhile isSpaceGo).reverse⟩

/-! ## Headers -/

/-- A header map: association list of (name, values). -/
abbrev Headers := List (String × List String)

/-- Case-insensitive header-name equality (Go canonicalises names; only
the induced equivalence matters here). -/
def headerKeyEq (a b : String) : Bool := strToLower a == strToLower b

/-- All values held under name `k` (across every matching entry): Go's
`Header[CanonicalMIMEHeaderKey k]`. -/
def headerGetValues (h : Headers) (k : String) : List String :=
  ((h.filter (fun p => headerKeyEq p.1 k)).map (fun p => p.2)).flatten

/-- Go `Header.Get`: first value under the name, or "". -/
def headerGet (h : Headers) (k : String) : String :=
  match headerGetValues h k with
  | [] => ""
  | v :: _ => v

/-- Go `Header.Set`: replace all values under the name by the single `v`. -/
def headerSet (h : Headers) (k v : String) : Headers :=
  (h.filter (fun p => !headerKeyEq p.1 k)) ++ [(k, [v])]

/-- Go `Header.Add`: append `v` to the values under `k`. -/
def headerAdd (h : Headers) (k v : String) : Headers :=
  match h with
  | [] => [(k, [v])]
  | p :: rest =>
    if headerKeyEq p.1 k then (p.1, p.2 ++ [v]) :: rest
    else p :: headerAdd rest k v

/-- server.go `isHopByHop`. -/
def isHopByHop (h : String) : Bool :=
  strToLower h == "connection" || strToLower h == "keep-alive" ||
  strToLower h == "proxy-authenticate" || strToLower h == "proxy-authorization" ||
  strToLower h == "te" || strToLower h == "trailer" ||
  strToLower h == "transfer-encoding" || strToLower h == "upgrade"

/-- server.go `isBlockedResponseHeader`. -/
def isBlockedResponseHeader (h : String) : Bool :=
  strToLower h == "set-cookie" || strToLower h == "strict-transport-security" ||
  strToLower h == "public-key-pins" || strToLower h == "content-length"

/-- server.go `wHeaderCopy`: copy `src` into `dst`, skipping hop-by-hop and
blocked names. -/
def wHeaderCopy (dst : Headers) (src : Headers) : Headers :=
  src.foldl (fun d p =>
    if isHopByHop p.1 || isBlockedResponseHeader p.1 then d
    else p.2.foldl (fun d v => headerAdd d p.1 v) d) dst

/-- server.go `wHeaderFromJSON`: same filter applied to the header map
decoded from the stored JSON blob (the decoded map is the argument). -/
def wHeaderFromJSON (dst : Headers) (m : Headers) : Headers :=
  m.foldl (fun d p =>
    if isHopByHop p.1 || isBlockedResponseHeader p.1 then d
    else p.2.foldl (fun d v => headerAdd d p.1 v) d) dst

/-! ## URL helpers (server.go) -/

/-- server.go `targetWithQuery`. -/
def targetWithQuery (target raw : String) : String :=
  if raw == "" then target
  else if strContains target "?" then target ++ "&" ++ raw
  else target ++ "?" ++ raw

/-- server.go `ghCategory`. -/
def ghCategory (u : String) : String :=
  if strContains u "/graphql" then "graphql"
  else if strContains u "/search/code" then "code_search"
  else if strContains u "/search/" then "search"
  else "core"

/-- client.go `categoryFor` (same classification, duplicated in source). -/
def categoryFor (url : String) : String :=
  if strContains url "/graphql" then "graphql"
  else if strContains url "/search/code" then "code_search"
  else if strContains url "/search/" then "search"
  else "core"

/-! ## Rate limiter (server.go `rateLimiter`) -/

/-- server.go `bucket`: token-bucket state for one API key hash. Tokens are
fractional (`float64` in the source, modelled as ℚ). -/
structure Bucket where
  capacity : Int
  tokens : ℚ
  last : ℚ
  deriving Repr, DecidableEq

/-- The limiter's bucket map (`map[string]*bucket`). -/
abbrev Buckets := List (String × Bucket)

def bucketsGet (bs : Buckets) (k : String) : Option Bucket :=
  (bs.find? (fun p => p.1 == k)).map (fun p => p.2)

def bucketsSet (bs : Buckets) (k : String) (b : Bucket) : Buckets :=
  match bs with
  | [] => [(k, b)]
  | p :: rest => if p.1 == k then (k, b) :: rest else p :: bucketsSet rest k b

/-- server.go `rateLimiter.Allow`: refuse `perSec ≤ 0` without creating a
bucket; otherwise lazily create a full bucket, refill by elapsed time,
clamp at capacity, and admit (consuming one token) iff at least one token
is available. Returns the decision and the updated bucket map. The two
`time.Now()` calls in the source are coalesced into the single instant
`now`. -/
def rlAllow (bs : Buckets) (key : String) (perSec : Int) (now : ℚ) :
    Bool × Buckets :=
  if perSec ≤ 0 then (false, bs)
  else
    let b0 := match bucketsGet bs key with
      | some b => b
      | none => { capacity := perSec, tokens := (perSec : ℚ), last := now }
    let dt := now - b0.last
    let t1 := b0.tokens + dt * (perSec : ℚ)
    let t2 := if t1 > (b0.capacity : ℚ) then (b0.capacity : ℚ) else t1
    if t2 ≥ 1 then
      (true, bucketsSet bs key { capacity := b0.capacity, tokens := t2 - 1, last := now })
    else
      (false, bucketsSet bs key { capacity := b0.capacity, tokens := t2, last := now })

/-! ## Response cache (cache.go) -/

/-- A row of the `cached_responses` table. -/
structure CacheRow where
  id : Nat
  method : String
  url : String
  contentHash : String
  status : Nat
  respHeaders : Headers
  respBody : List Nat
  expiresAt : Option ℚ
  deriving Repr, DecidableEq

/-- Cache table state: rows in insertion order, plus the next serial id. -/
structure CacheState where
  rows : List CacheRow
  nextId : Nat
  deriving Repr, DecidableEq

/-- The row-validity filter of `Cache.Get`'s SQL:
`method=$1 AND url=$2 AND content_hash=$3 AND (expires_at IS NULL OR expires_at > now())`. -/
def cacheRowGood (method url contentHash : String) (now : ℚ) (r : CacheRow) : Bool :=
  r.method == method && r.url == url && r.contentHash == contentHash &&
  (match r.expiresAt with
   | none => true
   | some e => now < e)

/-- `ORDER BY id DESC LIMIT 1` over the filtered rows: keep the row with the
greatest id, later insertions winning ties. -/
def pickNewest (acc : Option CacheRow) (rows : List CacheRow)
    (method url contentHash : String) (now : ℚ) : Option CacheRow :=
  match rows with
  | [] => acc
  | r :: rest =>
    if cacheRowGood method url contentHash now r then
      match acc with
      | none => pickNewest (some r) rest method url contentHash now
      | some b =>
        if b.id ≤ r.id then pickNewest (some r) rest method url contentHash now
        else pickNewest (some b) rest method url contentHash now
    else pickNewest acc rest method url contentHash now

/-- cache.go `Cache.Get` on a row list (hash of the request body supplied by
the caller wrapper `cacheGetBody`). A `none` result is the miss path
(`ErrNoRows` → `ok = false`). -/
def cacheGet (rows : List CacheRow) (method url contentHash : String) (now : ℚ) :
    Option CacheRow :=
  pickNewest none rows method url contentHash now

/-- cache.go `Cache.Get`: hashes the request body and queries. -/
def cacheGetBody (hashBytes : List Nat → String) (rows : List CacheRow)
    (method url : String) (body : List Nat) (now : ℚ) : Option CacheRow :=
  cacheGet rows method url (hashBytes body) now

/-- cache.go `Cache.Put`: append a row; `expires_at = now + maxAge` when the
configured `maxAge` (seconds) is positive, else NULL. -/
def cachePut (hashBytes : List Nat → String) (st : CacheState)
    (method url : String) (reqBody : List Nat) (status : Nat)
    (respHeaders : Headers) (respBody : List Nat) (maxAge : Int) (now : ℚ) :
    CacheState :=
  { rows := st.rows ++ [{
      id := st.nextId
      method := method
      url := url
      contentHash := hashBytes reqBody
      status := status
      respHeaders := respHeaders
      respBody := respBody
      expiresAt := if maxAge > 0 then some (now + (maxAge : ℚ)) else none }]
    nextId := st.nextId + 1 }

/-! ## Credential pool and upstream client (client.go) -/

/-- A row of `donated_tokens` (fields the pipeline touches). -/
structure Cred where
  id : String
  token : String
  githubUser : String
  revoked : Bool
  deriving Repr, DecidableEq

/-- A row of `token_rate_limits` for one (credential, category). `reset` is
in seconds relative to the Unix epoch (a TIMESTAMPTZ can lie before it). -/
structure Snap where
  remaining : Int
  reset : Int
  deriving Repr, DecidableEq

/-- Snapshot store: credential id → category → snapshot, if any. -/
abbrev SnapStore := String → String → Option Snap

/-- Go's `time.Time{}` zero value (January 1, year 1 UTC) in seconds
relative to the Unix epoch: what `reset` holds after the source's ignored
`Scan` error on a missing snapshot row. -/
def goZeroTimeSec : Int := -62135596800

/-- The `(remaining, reset)` the source's `chooseToken` loop ends up with
for a credential: the snapshot row when present, otherwise the Go zero
values left by the ignored `Scan` error. -/
def snapOf (snaps : SnapStore) (id category : String) : Int × Int :=
  match snaps id category with
  | some s => (s.remaining, s.reset)
  | none => (0, goZeroTimeSec)

/-- The in-memory record built per credential by `chooseToken` (`type tk`). -/
structure Tok where
  id : String
  token : String
  remaining : Int
  reset : Int
  deriving Repr, DecidableEq

/-- The comparator passed to `sort.Slice`: more remaining first; on equal
remaining, earlier reset first. -/
def tokLess (a b : Tok) : Bool :=
  if a.remaining == b.remaining then a.reset < b.reset else a.remaining > b.remaining

def insertTok (x : Tok) : List Tok → List Tok
  | [] => [x]
  | y :: ys => if tokLess x y then x :: y :: ys else y :: insertTok x ys

/-- Sorting by `tokLess` (insertion sort; the head, all the source uses, is
determined by the comparator up to full ties). -/
def sortToks (l : List Tok) : List Tok := l.foldr insertTok []

/-- client.go `chooseToken`: over the non-revoked credentials (in store
order), read each category snapshot (missing ⇒ Go zero values), sort by
`tokLess`, return the head's (id, token); error when none exist. -/
def chooseToken (creds : List Cred) (snaps : SnapStore) (category : String) :
    Except String (String × String) :=
  let toks := (creds.filter (fun c => !c.revoked)).map (fun c =>
    let rr := snapOf snaps c.id category
    ({ id := c.id, token := c.token, remaining := rr.1, reset := rr.2 } : Tok))
  if toks.isEmpty then Except.error "no donated tokens"
  else
    match sortToks toks with
    | [] => Except.error "no donated tokens"
    | ch :: _ => Except.ok (ch.id, ch.token)

/-- Modelled from the spec: the selection procedure as §4.3 words it, where
a missing snapshot is treated as `remaining = 0, reset = epoch` (epoch
= 0 here). Stated only to compare against `chooseToken`, whose missing-
snapshot default is the Go zero time, not the epoch. -/
def specSnapOf (snaps : SnapStore) (id category : String) : Int × Int :=
  match snaps id category with
  | some s => (s.remaining, s.reset)
  | none => (0, 0)

/-- Modelled from the spec: `chooseToken` as the spec words it (see
`specSnapOf`). -/
def specChooseToken (creds : List Cred) (snaps : SnapStore) (category : String) :
    Except String (String × String) :=
  let toks := (creds.filter (fun c => !c.revoked)).map (fun c =>
    let rr := specSnapOf snaps c.id category
    ({ id := c.id, token := c.token, remaining := rr.1, reset := rr.2 } : Tok))
  if toks.isEmpty then Except.error "no donated tokens"
  else
    match sortToks toks with
    | [] => Except.error "no donated tokens"
    | ch :: _ => Except.ok (ch.id, ch.token)

/-- The upstream HTTP response as received by `Client.Do`. -/
structure UpResp where
  status : Nat
  headers : Headers
  body : List Nat
  deriving Repr

/-- `UPDATE donated_tokens SET revoked=true WHERE id=$1`. -/
def revokeCred (creds : List Cred) (id : String) : List Cred :=
  creds.map (fun c => if c.id == id then { c with revoked := true } else c)

/-- client.go `Client.Do`'s revocation test: 401 always revokes; 403
revokes only when the lowercased JSON `message` contains
"bad credentials". -/
def shouldRevoke (status : Nat) (msg : String) : Bool :=
  status == 401 || (status == 403 && strContains (strToLower msg) "bad credentials")

/-- Result tuple of client.go `Client.Do`, plus the credential table after
the call and whether the upstream HTTP request was actually issued. -/
structure DoResult where
  status : Nat
  respHeaders : Headers
  respBody : List Nat
  usedToken : String
  httpCalled : Bool
  isErr : Bool
  newCreds : List Cred

/-- client.go `Client.Do`: choose a credential (error out when none),
issue the request (`resp` is the upstream's answer), and on 401 / matching
403 mark the credential revoked while still returning the upstream status,
headers and body. `parseMsg` is the JSON `message`-field extraction
(`""` when absent or unparsable). The async `refreshRate` probe does not
touch any state modelled here. -/
def clientDo (creds : List Cred) (snaps : SnapStore) (category : String)
    (resp : UpResp) (parseMsg : List Nat → String) : DoResult :=
  match chooseToken creds snaps category with
  | Except.error _ =>
    { status := 0, respHeaders := [], respBody := [], usedToken := ""
      httpCalled := false, isErr := true, newCreds := creds }
  | Except.ok (id, _tok) =>
    if resp.status == 401 || resp.status == 403 then
      if shouldRevoke resp.status (parseMsg resp.body) then
        { status := resp.status, respHeaders := resp.headers, respBody := resp.body
          usedToken := id, httpCalled := true, isErr := true
          newCreds := revokeCred creds id }
      else
        { status := resp.status, respHeaders := resp.headers, respBody := resp.body
          usedToken := id, httpCalled := true, isErr := false, newCreds := creds }
    else
      { status := resp.status, respHeaders := resp.headers, respBody := resp.body
        usedToken := id, httpCalled := true, isErr := false, newCreds := creds }

/-! ## Request pipeline (server.go `serveProxy`) -/

/-- A row of `api_keys` (fields the pipeline touches). -/
structure KeyRow where
  disabled : Bool
  perSec : Int
  hcUsername : String
  appName : String
  machine : String
  keyHint : String
  deriving Repr

/-- Key store: key hash → row, if any. -/
abbrev KeyStore := String → Option KeyRow

/-- The `(disabled, perSec)` pair `serveProxy` works with: the source
ignores the `QueryRow.Scan` error, so a missing row leaves the Go zero
values `(false, 0)`. -/
def scanKeyRow (keys : KeyStore) (keyHash : String) : Bool × Int :=
  match keys keyHash with
  | some r => (r.disabled, r.perSec)
  | none => (false, 0)

/-- server.go `formatKeyDisplay`. -/
def formatKeyDisplay (hc app machine hint : String) : String :=
  let base := hc ++ "_" ++ app ++ "_" ++ machine
  if hint == "" then base else base ++ "_" ++ hint

/-- server.go `lookupClientDisplay`: "" when the row is absent. -/
def lookupClientDisplay (keys : KeyStore) (keyHash : String) : String :=
  match keys keyHash with
  | some r => formatKeyDisplay r.hcUsername r.appName r.machine r.keyHint
  | none => ""

/-- The configuration fields the pipeline reads. -/
structure Config where
  maxProxyBodyBytes : Int
  maxCacheTime : Int
  deriving Repr

/-- Everything `serveProxy` consults besides the request: configuration,
stores, limiter and cache state, the clock, the upstream's answer, and the
abstracted digest / JSON functions. -/
structure ProxyEnv where
  cfg : Config
  keys : KeyStore
  buckets : Buckets
  cache : CacheState
  creds : List Cred
  snaps : SnapStore
  now : ℚ
  upstream : UpResp
  hashStr : String → String
  hashBytes : List Nat → String
  parseMsg : List Nat → String

/-- The incoming client request (fields the pipeline reads).
`contentLength` is Go's `r.ContentLength` (negative when undeclared);
`wireBody` is what the connection would deliver if read without limit. -/
structure ProxyReq where
  method : String
  xApiKey : String
  contentLength : Int
  wireBody : List Nat
  rawQuery : String

/-- The observable outcome of `serveProxy`: the response written to the
client, whether the upstream was called, whether a cache row was written,
whether the response came from cache, whether an early `http.Error` path
was taken, and the post-state of limiter buckets, cache and credentials. -/
structure ProxyOut where
  status : Nat
  headers : Headers
  body : List Nat
  upstreamCalled : Bool
  cacheWrote : Bool
  servedFromCache : Bool
  early : Bool
  buckets : Buckets
  cache : CacheState
  creds : List Cred

/-- Go `http.Error`: fixed plain-text headers, the given status; the
one-line message body is elided. -/
def errOut (env : ProxyEnv) (bs : Buckets) (code : Nat) : ProxyOut :=
  { status := code
    headers := [("Content-Type", ["text/plain; charset=utf-8"]),
                ("X-Content-Type-Options", ["nosniff"])]
    body := []
    upstreamCalled := false, cacheWrote := false, servedFromCache := false
    early := true, buckets := bs, cache := env.cache, creds := env.creds }

/-- The body `serveProxy` works with: read through `http.MaxBytesReader`
when a cap is configured — the source discards the read error
(`body, _ := io.ReadAll`), so an over-long body with no declared length is
silently truncated to the cap. -/
def bodyRead (env : ProxyEnv) (req : ProxyReq) : List Nat :=
  if env.cfg.maxProxyBodyBytes > 0 then
    req.wireBody.take env.cfg.maxProxyBodyBytes.toNat
  else req.wireBody

/-- The cache-lookup / upstream-fetch / response-emission tail of
server.go `serveProxy` (everything after auth, rate limiting and the body
bound): canonicalise the target, try the cache for GET/HEAD and emit the
stored row on a hit; otherwise call the upstream through `Client.Do`,
store the answer when cacheable and allowed, and emit the filtered headers
plus the debug headers. -/
def proxyCacheAndFetch (env : ProxyEnv) (req : ProxyReq) (target : String)
    (apiKeyHash : String) (bs : Buckets) (body : List Nat) : ProxyOut :=
  let fullTarget := targetWithQuery target req.rawQuery
  let cacheable := req.method == "GET" || req.method == "HEAD"
  let hit := if cacheable then
      cacheGetBody env.hashBytes env.cache.rows req.method fullTarget body env.now
    else none
  match hit with
  | some row =>
    let h0 := wHeaderFromJSON [] row.respHeaders
    let h1 := headerSet h0 "X-Gh-Proxy-Cache" "hit"
    let h2 := headerSet h1 "X-Gh-Proxy-Category" (ghCategory fullTarget)
    let disp := lookupClientDisplay env.keys apiKeyHash
    let h3 := if disp != "" then headerSet h2 "X-Gh-Proxy-Client" disp else h2
    { status := row.status, headers := h3, body := row.respBody
      upstreamCalled := false, cacheWrote := false, servedFromCache := true
      early := false, buckets := bs, cache := env.cache, creds := env.creds }
  | none =>
    let dr := clientDo env.creds env.snaps (categoryFor fullTarget)
      env.upstream env.parseMsg
    let cc := strToLower (headerGet dr.respHeaders "Cache-Control")
    let store := cacheable && dr.status == 200 &&
      !(strContains cc "no-cache") && !(strContains cc "no-store")
    let cache1 := if store then
        cachePut env.hashBytes env.cache req.method fullTarget body
          dr.status dr.respHeaders dr.respBody env.cfg.maxCacheTime env.now
      else env.cache
    let h0 := wHeaderCopy [] dr.respHeaders
    let h1 := headerSet h0 "X-Gh-Proxy-Cache" "miss"
    let h2 := headerSet h1 "X-Gh-Proxy-Category" (ghCategory fullTarget)
    let disp := lookupClientDisplay env.keys apiKeyHash
    let h3 := if disp != "" then headerSet h2 "X-Gh-Proxy-Client" disp else h2
    let user := match dr.newCreds.find? (fun c => c.id == dr.usedToken) with
      | some c => c.githubUser
      | none => ""
    let h4 := if dr.usedToken != "" && user != "" then
        headerSet h3 "X-Gh-Proxy-Donor" user
      else h3
    { status := dr.status, headers := h4, body := dr.respBody
      upstreamCalled := dr.httpCalled, cacheWrote := store
      servedFromCache := false, early := false
      buckets := bs, cache := cache1, creds := dr.newCreds }

/-- server.go `serveProxy`, translated step by step: trim the API key (401
when empty); scan `(disabled, perSec)` with the error ignored (403 when
disabled); rate-limit (429 when denied); bound the declared content length
(413); read the body (`bodyRead`); then `proxyCacheAndFetch`. -/
def serveProxy (env : ProxyEnv) (req : ProxyReq) (target : String) : ProxyOut :=
  let apiKey := parseAPIKey req.xApiKey
  if apiKey == "" then errOut env env.buckets 401
  else
    let apiKeyHash := env.hashStr apiKey
    let dp := scanKeyRow env.keys apiKeyHash
    if dp.1 then errOut env env.buckets 403
    else
      let ab := rlAllow env.buckets apiKeyHash dp.2 env.now
      if !ab.1 then errOut env ab.2 429
      else
        if req.contentLength > 0 && env.cfg.maxProxyBodyBytes > 0 &&
           req.contentLength > env.cfg.maxProxyBodyBytes then
          errOut env ab.2 413
        else
          proxyCacheAndFetch env req target apiKeyHash ab.2 (bodyRead env req)

/-! ## Helper lemmas: header filtering -/

/-- A header name that survives the response filter. -/
def headerNameOk (k : String) : Bool :=
  !(isHopByHop k || isBlockedResponseHeader k)

/-- Every entry of a header map has a surviving name. -/
def headersOk (h : Headers) : Prop := ∀ p ∈ h, headerNameOk p.1 = true

theorem headersOk_nil : headersOk [] := by intro p hp; cases hp

theorem headersOk_headerAdd {h : Headers} {k : String} (v : String)
    (hk : headerNameOk k = true) (hh : headersOk h) :
    headersOk (headerAdd h k v) := by
  induction h with
  | nil => intro p hp; simp [headerAdd] at hp; subst hp; exact hk
  | cons q rest ih =>
    intro p hp
    simp only [headerAdd] at hp
    split at hp
    · rcases List.mem_cons.1 hp with h1 | h1
      · subst h1; exact hh q (List.mem_cons_self _ _)
      · exact hh p (List.mem_cons_of_mem _ h1)
    · rcases List.mem_cons.1 hp with h1 | h1
      · subst h1; exact hh p (List.mem_cons_self _ _)
      · exact ih (fun q hq => hh q (List.mem_cons_of_mem _ hq)) p h1

theorem headersOk_valsFold {d : Headers} {k : String} (vs : List String)
    (hk : headerNameOk k = true) (hd : headersOk d) :
    headersOk (vs.foldl (fun d v => headerAdd d k v) d) := by
  induction vs generalizing d with
  | nil => exact hd
  | cons v rest ih => exact ih (headersOk_headerAdd v hk hd)

theorem headersOk_wHeaderCopy (src : Headers) {dst : Headers}
    (hd : headersOk dst) : headersOk (wHeaderCopy dst src) := by
  induction src generalizing dst with
  | nil => exact hd
  | cons p rest ih =>
    simp only [wHeaderCopy, List.foldl_cons]
    by_cases hbad : (isHopByHop p.1 || isBlockedResponseHeader p.1) = true
    · simpa [wHeaderCopy, hbad] using ih hd
    · have hok : headerNameOk p.1 = true := by
        simp only [headerNameOk]; simp at hbad
        simp [hbad.1, hbad.2]
      simpa [wHeaderCopy, hbad] using ih (headersOk_valsFold p.2 hok hd)

theorem wHeaderFromJSON_eq : wHeaderFromJSON = wHeaderCopy := rfl

theorem headersOk_headerSet {h : Headers} (k v : String)
    (hk : headerNameOk k = true) (hh : headersOk h) :
    headersOk (headerSet h k v) := by
  intro p hp
  simp only [headerSet] at hp
  rcases List.mem_append.1 hp with h1 | h1
  · exact hh p (List.mem_of_mem_filter h1)
  · simp at h1; subst h1; exact hk

theorem headersOk_errOut (env : ProxyEnv) (bs : Buckets) (code : Nat) :
    headersOk (errOut env bs code).headers := by
  intro p hp
  simp only [errOut] at hp
  rcases List.mem_cons.1 hp with h1 | h1
  · subst h1; decide
  · simp at h1; subst h1; decide

theorem headerNameOk_debug_cache : headerNameOk "X-Gh-Proxy-Cache" = true := by decide
theorem headerNameOk_debug_category : headerNameOk "X-Gh-Proxy-Category" = true := by decide
theorem headerNameOk_debug_client : headerNameOk "X-Gh-Proxy-Client" = true := by decide
theorem headerNameOk_debug_donor : headerNameOk "X-Gh-Proxy-Donor" = true := by decide

theorem headersOk_proxyCacheAndFetch (env : ProxyEnv) (req : ProxyReq)
    (target apiKeyHash : String) (bs : Buckets) (body : List Nat) :
    headersOk (proxyCacheAndFetch env req target apiKeyHash bs body).headers := by
  unfold proxyCacheAndFetch
  dsimp only
  split
  · -- cache hit branch
    split
    · exact headersOk_headerSet _ _ headerNameOk_debug_client
        (headersOk_headerSet _ _ headerNameOk_debug_category
          (headersOk_headerSet _ _ headerNameOk_debug_cache
            (by rw [wHeaderFromJSON_eq]
                exact headersOk_wHeaderCopy _ headersOk_nil)))
    · exact headersOk_headerSet _ _ headerNameOk_debug_category
        (headersOk_headerSet _ _ headerNameOk_debug_cache
          (by rw [wHeaderFromJSON_eq]
              exact headersOk_wHeaderCopy _ headersOk_nil))
  · -- miss branch
    split
    · split
      · exact headersOk_headerSet _ _ headerNameOk_debug_donor
          (headersOk_headerSet _ _ headerNameOk_debug_client
            (headersOk_headerSet _ _ headerNameOk_debug_category
              (headersOk_headerSet _ _ headerNameOk_debug_cache
                (headersOk_wHeaderCopy _ headersOk_nil))))
      · exact headersOk_headerSet _ _ headerNameOk_debug_client
          (headersOk_headerSet _ _ headerNameOk_debug_category
            (headersOk_headerSet _ _ headerNameOk_debug_cache
              (headersOk_wHeaderCopy _ headersOk_nil)))
    · split
      · exact headersOk_headerSet _ _ headerNameOk_debug_donor
          (headersOk_headerSet _ _ headerNameOk_debug_category
            (headersOk_headerSet _ _ headerNameOk_debug_cache
              (headersOk_wHeaderCopy _ headersOk_nil)))
      · exact headersOk_headerSet _ _ headerNameOk_debug_category
          (headersOk_headerSet _ _ headerNameOk_debug_cache
            (headersOk_wHeaderCopy _ headersOk_nil))

theorem headersOk_serveProxy (env : ProxyEnv) (req : ProxyReq) (target : String) :
    headersOk (serveProxy env req target).headers := by
  unfold serveProxy
  dsimp only
  split
  · exact headersOk_errOut _ _ _
  · split
    · exact headersOk_errOut _ _ _
    · split
      · exact headersOk_errOut _ _ _
      · split
        · exact headersOk_errOut _ _ _
        · exact headersOk_proxyCacheAndFetch _ _ _ _ _ _

/-- C7: every header name in any response emitted by `serveProxy` — cache
hit, upstream miss, or error path — is outside both the hop-by-hop set and
the security-boundary set, the comparison being case-insensitive (both
predicates lower-case the name before comparing). -/
theorem C7_response_headers_filtered (env : ProxyEnv) (req : ProxyReq)
    (target : String) :
    ∀ p ∈ (serveProxy env req target).headers,
      isHopByHop p.1 = false ∧ isBlockedResponseHeader p.1 = false := by
  intro p hp
  have h := headersOk_serveProxy env req target p hp
  simp only [headerNameOk, Bool.not_eq_true', Bool.or_eq_false_iff] at h
  exact h

/-! ## Rate limiter theorems -/

/-- The bucket `Allow` starts from: the stored one, or a freshly created
full bucket (`capacity = tokens = perSec, last = now`). -/
def allowBase (bs : Buckets) (key : String) (perSec : Int) (now : ℚ) : Bucket :=
  match bucketsGet bs key with
  | some b => b
  | none => { capacity := perSec, tokens := (perSec : ℚ), last := now }

/-- C8: `Allow(keyHash, perSec)` denies without creating a bucket when
`perSec ≤ 0`; otherwise it starts from the stored bucket or a lazily
created full one (`capacity = tokens = perSec`, `last = now`), refills to
`min(capacity, tokens + (now − last) × perSec)` with `last` set to `now`,
and admits — consuming exactly one token — iff the refilled amount is at
least 1. -/
theorem C8_rate_limiter_allow (bs : Buckets) (key : String) (perSec : Int)
    (now : ℚ) :
    (perSec ≤ 0 → rlAllow bs key perSec now = (false, bs)) ∧
    (0 < perSec →
      ((rlAllow bs key perSec now).1 = true ↔
        1 ≤ min ((allowBase bs key perSec now).capacity : ℚ)
          ((allowBase bs key perSec now).tokens +
            (now - (allowBase bs key perSec now).last) * (perSec : ℚ))) ∧
      (rlAllow bs key perSec now).2 = bucketsSet bs key
        { capacity := (allowBase bs key perSec now).capacity
          tokens :=
            (if 1 ≤ min ((allowBase bs key perSec now).capacity : ℚ)
                ((allowBase bs key perSec now).tokens +
                  (now - (allowBase bs key perSec now).last) * (perSec : ℚ))
             then min ((allowBase bs key perSec now).capacity : ℚ)
                ((allowBase bs key perSec now).tokens +
                  (now - (allowBase bs key perSec now).last) * (perSec : ℚ)) - 1
             else min ((allowBase bs key perSec now).capacity : ℚ)
                ((allowBase bs key perSec now).tokens +
                  (now - (allowBase bs key perSec now).last) * (perSec : ℚ)))
          last := now }) := by
  constructor
  · intro hle
    simp only [rlAllow, if_pos hle]
  · intro hpos
    have hnle : ¬ perSec ≤ 0 := not_le.2 hpos
    set b0 := allowBase bs key perSec now with hb0
    have hb0eq : (match bucketsGet bs key with
        | some b => b
        | none => ({ capacity := perSec, tokens := (perSec : ℚ), last := now } : Bucket)) = b0 := rfl
    simp only [rlAllow, if_neg hnle, hb0eq]
    set t1 := b0.tokens + (now - b0.last) * (perSec : ℚ) with ht1
    have hmin : (if t1 > (b0.capacity : ℚ) then (b0.capacity : ℚ) else t1) =
        min (b0.capacity : ℚ) t1 := by
      rcases le_or_lt t1 (b0.capacity : ℚ) with h | h
      · rw [if_neg (not_lt.2 h), min_eq_right h]
      · rw [if_pos h, min_eq_left h.le]
    rw [hmin]
    rcases le_or_lt 1 (min (b0.capacity : ℚ) t1) with hge | hlt
    · simp [if_pos hge, hge]
    · have h2 : ¬ (1 : ℚ) ≤ min (b0.capacity : ℚ) t1 := not_le.2 hlt
      simp [if_neg h2, h2]

/-- Rational-arithmetic facts used to instantiate `C8_rate_limiter_allow`
at a concrete input. -/
theorem rat_fact_refill_full : (1 : ℚ) ≤ min ((5 : Int) : ℚ)
    (((5 : Int) : ℚ) + ((0 : ℚ) - (0 : ℚ)) * ((5 : Int) : ℚ)) := by
  norm_num

theorem C8_rate_limiter_allow_witness :
    rlAllow [] "k" 0 0 = (false, []) ∧ (rlAllow [] "k" 5 0).1 = true := by
  refine ⟨(C8_rate_limiter_allow [] "k" 0 0).1 (by decide), ?_⟩
  have h := ((C8_rate_limiter_allow [] "k" 5 0).2 (by decide)).1
  exact h.2 (by simp only [allowBase, bucketsGet]; exact rat_fact_refill_full)

/-! ## Cache theorems -/

theorem pickNewest_snoc (method url contentHash : String) (now : ℚ)
    (rows : List CacheRow) (x : CacheRow) (acc : Option CacheRow) :
    pickNewest acc (rows ++ [x]) method url contentHash now =
      if cacheRowGood method url contentHash now x then
        match pickNewest acc rows method url contentHash now with
        | none => some x
        | some b => if b.id ≤ x.id then some x else some b
      else pickNewest acc rows method url contentHash now := by
  induction rows generalizing acc with
  | nil =>
    cases acc with
    | none =>
      by_cases hgx : cacheRowGood method url contentHash now x = true
      · simp [pickNewest, hgx]
      · simp [pickNewest, hgx]
    | some b =>
      by_cases hgx : cacheRowGood method url contentHash now x = true
      · by_cases hid : b.id ≤ x.id
        · simp [pickNewest, hgx, hid]
        · simp [pickNewest, hgx, hid]
      · simp [pickNewest, hgx]
  | cons r rest ih =>
    by_cases hgr : cacheRowGood method url contentHash now r = true
    · cases acc with
      | none =>
        simp only [List.cons_append, pickNewest, if_pos hgr]
        exact ih (some r)
      | some b =>
        simp only [List.cons_append, pickNewest, if_pos hgr]
        by_cases hid : b.id ≤ r.id
        · simp only [if_pos hid]
          exact ih (some r)
        · simp only [if_neg hid]
          exact ih (some b)
    · simp only [List.cons_append, pickNewest, if_neg hgr]
      exact ih acc

theorem cacheGet_none_iff (method url contentHash : String) (now : ℚ)
    (rows : List CacheRow) :
    cacheGet rows method url contentHash now = none ↔
      ∀ r ∈ rows, cacheRowGood method url contentHash now r = false := by
  induction rows using List.reverseRecOn with
  | nil => simp [cacheGet, pickNewest]
  | append_singleton rows x ih =>
    unfold cacheGet at ih ⊢
    rw [pickNewest_snoc]
    by_cases hgx : cacheRowGood method url contentHash now x = true
    · rw [if_pos hgx]
      constructor
      · intro h
        cases hp : pickNewest none rows method url contentHash now with
        | none => rw [hp] at h; simp at h
        | some b =>
          rw [hp] at h
          by_cases hid : b.id ≤ x.id
          · simp only [hid, if_true] at h; cases h
          · simp only [hid, if_false] at h; cases h
      · intro h
        have := h x (List.mem_append.2 (Or.inr (List.mem_singleton.2 rfl)))
        rw [hgx] at this; cases this
    · rw [if_neg hgx]
      constructor
      · intro h r hr
        rcases List.mem_append.1 hr with h1 | h1
        · exact (ih.1 h) r h1
        · rw [List.mem_singleton.1 h1]
          exact Bool.not_eq_true _ ▸ (Bool.eq_false_iff.2 hgx)
      · intro h
        exact ih.2 (fun r hr => h r (List.mem_append.2 (Or.inl hr)))

theorem cacheGet_some_spec (method url contentHash : String) (now : ℚ)
    (rows : List CacheRow) :
    ∀ r, cacheGet rows method url contentHash now = some r →
      cacheRowGood method url contentHash now r = true ∧
      ∃ l1 l2, rows = l1 ++ r :: l2 ∧
        (∀ x ∈ l1, cacheRowGood method url contentHash now x = true → x.id ≤ r.id) ∧
        (∀ x ∈ l2, cacheRowGood method url contentHash now x = true → x.id < r.id) := by
  induction rows using List.reverseRecOn with
  | nil => intro r h; simp [cacheGet, pickNewest] at h
  | append_singleton rows x ih =>
    intro r h
    unfold cacheGet at h
    rw [pickNewest_snoc] at h
    by_cases hgx : cacheRowGood method url contentHash now x = true
    · rw [if_pos hgx] at h
      cases hb : pickNewest none rows method url contentHash now with
      | none =>
        rw [hb] at h
        simp only [Option.some.injEq] at h
        subst h
        refine ⟨hgx, rows, [], rfl, ?_, by simp⟩
        intro y hy hgy
        have hnone := (cacheGet_none_iff method url contentHash now rows).1 hb
        rw [hnone y hy] at hgy; cases hgy
      | some b =>
        rw [hb] at h
        by_cases hid : b.id ≤ x.id
        · simp only [hid, if_true, Option.some.injEq] at h
          subst h
          refine ⟨hgx, rows, [], rfl, ?_, by simp⟩
          intro y hy hgy
          obtain ⟨-, l1, l2, hdec, hle, hlt⟩ := ih b hb
          subst hdec
          rcases List.mem_append.1 hy with h1 | h1
          · exact le_trans (hle y h1 hgy) hid
          · rcases List.mem_cons.1 h1 with h2 | h2
            · subst h2; exact hid
            · exact le_trans (le_of_lt (hlt y h2 hgy)) hid
        · simp only [hid, if_false, Option.some.injEq] at h
          subst h
          obtain ⟨hgr, l1, l2, hdec, hle, hlt⟩ := ih _ hb
          subst hdec
          refine ⟨hgr, l1, l2 ++ [x], by simp, hle, ?_⟩
          intro y hy hgy
          rcases List.mem_append.1 hy with h1 | h1
          · exact hlt y h1 hgy
          · rw [List.mem_singleton.1 h1]
            exact lt_of_not_le hid
    · rw [if_neg hgx] at h
      obtain ⟨hgr, l1, l2, hdec, hle, hlt⟩ := ih r h
      subst hdec
      refine ⟨hgr, l1, l2 ++ [x], by simp, hle, ?_⟩
      intro y hy hgy
      rcases List.mem_append.1 hy with h1 | h1
      · exact hlt y h1 hgy
      · rw [List.mem_singleton.1 h1] at hgy ⊢
        exact absurd hgy hgx

/-- C3: a `get` result is a row matching `(method, url, bodyHash)` that is
unexpired at the call instant (`expiry` absent or strictly later than
`now`), and it is the most recently inserted such row — every matching
unexpired row inserted after it would have to carry a larger id, and none
does (rows listed in insertion order; ties on id resolve to the latest
inserted). A miss happens exactly when no matching unexpired row exists,
so no row whose expiry is at or before `now` is ever returned. -/
theorem C3_cache_get_newest_unexpired (hashBytes : List Nat → String)
    (rows : List CacheRow) (method url : String) (body : List Nat) (now : ℚ) :
    (cacheGetBody hashBytes rows method url body now = none ↔
      ∀ r ∈ rows, cacheRowGood method url (hashBytes body) now r = false) ∧
    (∀ r, cacheGetBody hashBytes rows method url body now = some r →
      cacheRowGood method url (hashBytes body) now r = true ∧
      (∀ e, r.expiresAt = some e → now < e) ∧
      ∃ l1 l2, rows = l1 ++ r :: l2 ∧
        (∀ x ∈ l1, cacheRowGood method url (hashBytes body) now x = true → x.id ≤ r.id) ∧
        (∀ x ∈ l2, cacheRowGood method url (hashBytes body) now x = true → x.id < r.id)) := by
  constructor
  · exact cacheGet_none_iff method url (hashBytes body) now rows
  · intro r h
    obtain ⟨hg, hdec⟩ := cacheGet_some_spec method url (hashBytes body) now rows r h
    refine ⟨hg, ?_, hdec⟩
    intro e he
    simp only [cacheRowGood, he, Bool.and_eq_true, decide_eq_true_eq] at hg
    exact hg.2

/-- Concrete rows used to instantiate the cache theorems. -/
def rowOne : CacheRow :=
  { id := 1, method := "GET", url := "u", contentHash := "h", status := 200,
    respHeaders := [], respBody := [7], expiresAt := none }

def rowTwo : CacheRow :=
  { id := 2, method := "GET", url := "u", contentHash := "h", status := 201,
    respHeaders := [], respBody := [8], expiresAt := none }

theorem C3_cache_get_newest_unexpired_witness :
    (cacheGetBody (fun _ => "h") [rowOne, rowTwo] "GET" "u" [] 0 = some rowTwo) ∧
    (cacheRowGood "GET" "u" "h" 0 rowTwo = true ∧
      (∀ e, rowTwo.expiresAt = some e → (0:ℚ) < e) ∧
      ∃ l1 l2, [rowOne, rowTwo] = l1 ++ rowTwo :: l2 ∧
        (∀ x ∈ l1, cacheRowGood "GET" "u" "h" 0 x = true → x.id ≤ rowTwo.id) ∧
        (∀ x ∈ l2, cacheRowGood "GET" "u" "h" 0 x = true → x.id < rowTwo.id)) := by
  refine ⟨by rfl, ?_⟩
  exact (C3_cache_get_newest_unexpired (fun _ => "h") [rowOne, rowTwo] "GET" "u" [] 0).2
    rowTwo (by rfl)

/-- C9: a `get` after a `put` of value `v = (status, headers, body)` under
the same `(method, url, body)` returns `v`: the put row carries the same
body hash the get queries (both apply the configured digest to the same
bytes), the appended row has the largest id, and it is unexpired — always
when the configured TTL is zero (row stored with no expiry, hit at every
later instant), and within the TTL window (`now2 < now1 + TTL`) when the
TTL is positive. `hinv` is the serial-id invariant of the table: every
existing row's id is below the next serial value. -/
theorem C9_cache_put_get_roundtrip (hashBytes : List Nat → String)
    (st : CacheState) (method url : String) (body : List Nat) (status : Nat)
    (respHeaders : Headers) (respBody : List Nat) (maxAge : Int) (now1 now2 : ℚ)
    (hinv : ∀ r ∈ st.rows, r.id < st.nextId)
    (hfresh : maxAge = 0 ∨ (0 < maxAge ∧ now2 < now1 + (maxAge : ℚ))) :
    ∃ r, cacheGetBody hashBytes
        (cachePut hashBytes st method url body status respHeaders respBody maxAge now1).rows
        method url body now2 = some r ∧
      r.id = st.nextId ∧ r.status = status ∧ r.respHeaders = respHeaders ∧
      r.respBody = respBody := by
  set newRow : CacheRow :=
    { id := st.nextId, method := method, url := url,
      contentHash := hashBytes body, status := status,
      respHeaders := respHeaders, respBody := respBody,
      expiresAt := if maxAge > 0 then some (now1 + (maxAge : ℚ)) else none }
    with hnew
  have hput : (cachePut hashBytes st method url body status respHeaders respBody maxAge now1).rows
      = st.rows ++ [newRow] := rfl
  have hgood : cacheRowGood method url (hashBytes body) now2 newRow = true := by
    rcases hfresh with h0 | ⟨hpos, hlt⟩
    · simp [cacheRowGood, hnew, h0]
    · simp [cacheRowGood, hnew, if_pos hpos, hlt]
  refine ⟨newRow, ?_, rfl, rfl, rfl, rfl⟩
  unfold cacheGetBody cacheGet
  rw [hput, pickNewest_snoc, if_pos hgood]
  cases hb : pickNewest none st.rows method url (hashBytes body) now2 with
  | none => rfl
  | some b =>
    have hmem : b ∈ st.rows := by
      obtain ⟨-, l1, l2, hdec, -, -⟩ :=
        cacheGet_some_spec method url (hashBytes body) now2 st.rows b hb
      rw [hdec]
      exact List.mem_append.2 (Or.inr (List.mem_cons_self _ _))
    have hid : b.id ≤ newRow.id := le_of_lt (hinv b hmem)
    simp only [hid, if_true]

theorem C9_cache_put_get_roundtrip_witness :
    (∀ r ∈ (CacheState.mk [] 0).rows, r.id < (CacheState.mk [] 0).nextId) ∧
    ∃ r, cacheGetBody (fun _ => "h")
        (cachePut (fun _ => "h") (CacheState.mk [] 0) "GET" "u" [] 200 [] [9] 0 0).rows
        "GET" "u" [] 7 = some r ∧
      r.id = 0 ∧ r.status = 200 ∧ r.respHeaders = ([] : Headers) ∧ r.respBody = [9] := by
  refine ⟨by simp, ?_⟩
  exact C9_cache_put_get_roundtrip (fun _ => "h") (CacheState.mk [] 0) "GET" "u" [] 200
    [] [9] 0 0 7 (by simp) (Or.inl rfl)

/-! ## Credential selection theorems -/

theorem tokLess_iff {a b : Tok} : tokLess a b = true ↔
    (a.remaining = b.remaining ∧ a.reset < b.reset) ∨ b.remaining < a.remaining := by
  simp only [tokLess]
  by_cases hab : a.remaining = b.remaining
  · simp [hab]
  · simp [hab, gt_iff_lt]

theorem tokLess_irrefl (a : Tok) : tokLess a a = false := by
  rw [Bool.eq_false_iff]
  intro h
  rw [tokLess_iff] at h
  omega

theorem tokLess_asymm {a b : Tok} (h : tokLess a b = true) : tokLess b a = false := by
  rw [Bool.eq_false_iff]
  intro h2
  rw [tokLess_iff] at h h2
  omega

theorem tokLess_trans {a b c : Tok} (h1 : tokLess a b = true)
    (h2 : tokLess b c = true) : tokLess a c = true := by
  rw [tokLess_iff] at h1 h2 ⊢
  omega

theorem mem_insertTok {x z : Tok} {l : List Tok} :
    z ∈ insertTok x l ↔ z = x ∨ z ∈ l := by
  induction l with
  | nil => simp [insertTok]
  | cons y ys ih =>
    simp only [insertTok]
    split
    · simp [List.mem_cons]
    · simp only [List.mem_cons, ih]
      tauto

theorem pairwise_insertTok {x : Tok} {l : List Tok}
    (h : List.Pairwise (fun a b => tokLess b a = false) l) :
    List.Pairwise (fun a b => tokLess b a = false) (insertTok x l) := by
  induction l with
  | nil => simp [insertTok]
  | cons y ys ih =>
    rcases List.pairwise_cons.1 h with ⟨hy, hys⟩
    simp only [insertTok]
    split
    · rename_i hxy
      refine List.pairwise_cons.2 ⟨?_, h⟩
      intro z hz
      rcases List.mem_cons.1 hz with h1 | h1
      · subst h1; exact tokLess_asymm hxy
      · rw [Bool.eq_false_iff]
        intro h2
        have := tokLess_trans h2 hxy
        rw [hy z h1] at this; cases this
    · rename_i hxy
      refine List.pairwise_cons.2 ⟨?_, ih hys⟩
      intro z hz
      rcases mem_insertTok.1 hz with h1 | h1
      · subst h1; exact Bool.not_eq_true _ ▸ Bool.eq_false_iff.2 hxy
      · exact hy z h1

theorem pairwise_sortToks (l : List Tok) :
    List.Pairwise (fun a b => tokLess b a = false) (sortToks l) := by
  induction l with
  | nil => simp [sortToks]
  | cons x xs ih => exact pairwise_insertTok ih

theorem mem_sortToks {z : Tok} {l : List Tok} : z ∈ sortToks l ↔ z ∈ l := by
  induction l with
  | nil => simp [sortToks]
  | cons x xs ih =>
    simp only [sortToks, List.foldr_cons] at ih ⊢
    rw [mem_insertTok, ih, List.mem_cons]

theorem insertTok_ne_nil (x : Tok) (l : List Tok) : insertTok x l ≠ [] := by
  cases l with
  | nil => simp [insertTok]
  | cons y ys =>
    simp only [insertTok]
    split
    · simp
    · simp

theorem sortToks_head_optimal {l : List Tok} {ch : Tok} {rest : List Tok}
    (h : sortToks l = ch :: rest) :
    ∀ x ∈ l, tokLess x ch = false := by
  intro x hx
  have hmem : x ∈ sortToks l := mem_sortToks.2 hx
  rw [h] at hmem
  rcases List.mem_cons.1 hmem with h1 | h1
  · subst h1; exact tokLess_irrefl x
  · have hp := pairwise_sortToks l
    rw [h] at hp
    exact (List.pairwise_cons.1 hp).1 x h1

/-- The per-credential record `chooseToken` builds (source `toks` loop). -/
def mkTok (snaps : SnapStore) (category : String) (c : Cred) : Tok :=
  { id := c.id, token := c.token
    remaining := (snapOf snaps c.id category).1
    reset := (snapOf snaps c.id category).2 }

theorem chooseToken_toks_eq (creds : List Cred) (snaps : SnapStore)
    (category : String) :
    chooseToken creds snaps category =
      (let toks := (creds.filter (fun c => !c.revoked)).map (mkTok snaps category)
       if toks.isEmpty then Except.error "no donated tokens"
       else match sortToks toks with
         | [] => Except.error "no donated tokens"
         | ch :: _ => Except.ok (ch.id, ch.token)) := rfl

/-- The chosen credential is a non-revoked member of the pool. -/
theorem chooseToken_ok_mem (creds : List Cred) (snaps : SnapStore)
    (category : String) (chId chTok : String)
    (h : chooseToken creds snaps category = Except.ok (chId, chTok)) :
    ∃ c ∈ creds.filter (fun c => !c.revoked), c.id = chId ∧ c.token = chTok := by
  rw [chooseToken_toks_eq] at h
  dsimp only at h
  split at h
  · cases h
  · split at h
    · cases h
    · rename_i ch rest hsort
      simp only [Except.ok.injEq, Prod.mk.injEq] at h
      have hmem : ch ∈ (creds.filter (fun c => !c.revoked)).map (mkTok snaps category) := by
        rw [← mem_sortToks, hsort]; exact List.mem_cons_self _ _
      rcases List.mem_map.1 hmem with ⟨c, hc, hceq⟩
      exact ⟨c, hc, by rw [← h.1, ← hceq]; rfl, by rw [← h.2, ← hceq]; rfl⟩

/-- C5 as stated is refuted: on a missing snapshot the source's ignored
`Scan` error leaves `reset` at Go's zero time (year 1), not at the Unix
epoch. With credential A lacking a snapshot and credential B holding
`remaining = 0, reset ≈ year 1019` (before the epoch), both exhausted, the
code prefers A (year 1 < year 1019) while the claim's procedure (missing ⇒
epoch) prefers B (year 1019 < epoch). -/
def credA : Cred := { id := "A", token := "ta", githubUser := "ua", revoked := false }

def credB : Cred := { id := "B", token := "tb", githubUser := "ub", revoked := false }

/-- Snapshot store of the C5 counterexample: B has an exhausted snapshot
whose reset lies between Go's zero time and the epoch; A has none. -/
def snapsCx : SnapStore := fun id cat =>
  if id == "B" && cat == "core" then some { remaining := 0, reset := -30000000000 }
  else none

theorem C5_counterexample :
    chooseToken [credA, credB] snapsCx "core" = Except.ok ("A", "ta") ∧
    specChooseToken [credA, credB] snapsCx "core" = Except.ok ("B", "tb") ∧
    (Except.ok ("A", "ta") : Except String (String × String)) ≠ Except.ok ("B", "tb") := by
  refine ⟨by rfl, by rfl, ?_⟩
  intro h
  simp only [Except.ok.injEq, Prod.mk.injEq] at h
  exact absurd h.1 (by decide)

/-- C5 (amended): the selector errors with "no donated tokens" exactly when
no non-revoked credential exists; otherwise it returns the id and token of
a non-revoked credential that is optimal under the policy `remaining DESC,
ties by reset ASC`, where a credential with no snapshot for the category is
treated as `remaining = 0` with `reset =` Go's zero time (year 1, before
the epoch) — the value left by the source's ignored `Scan` error — rather
than the epoch the spec names. -/
theorem C5_amended_choose_token (creds : List Cred) (snaps : SnapStore)
    (category : String) :
    (creds.filter (fun c => !c.revoked) = [] →
      chooseToken creds snaps category = Except.error "no donated tokens") ∧
    (∀ chId chTok, chooseToken creds snaps category = Except.ok (chId, chTok) →
      ∃ c ∈ creds.filter (fun c => !c.revoked), c.id = chId ∧ c.token = chTok ∧
        ∀ d ∈ creds.filter (fun c => !c.revoked),
          (snapOf snaps d.id category).1 < (snapOf snaps c.id category).1 ∨
          ((snapOf snaps d.id category).1 = (snapOf snaps c.id category).1 ∧
           (snapOf snaps c.id category).2 ≤ (snapOf snaps d.id category).2)) := by
  constructor
  · intro hnil
    rw [chooseToken_toks_eq]
    simp [hnil]
  · intro chId chTok h
    have hmm := chooseToken_ok_mem creds snaps category chId chTok h
    rw [chooseToken_toks_eq] at h
    dsimp only at h
    split at h
    · cases h
    · split at h
      · cases h
      · rename_i ch rest hsort
        simp only [Except.ok.injEq, Prod.mk.injEq] at h
        have hopt := sortToks_head_optimal hsort
        have hmemch : ch ∈ (creds.filter (fun c => !c.revoked)).map (mkTok snaps category) := by
          rw [← mem_sortToks, hsort]; exact List.mem_cons_self _ _
        rcases List.mem_map.1 hmemch with ⟨c, hc, hceq⟩
        refine ⟨c, hc, by rw [← h.1, ← hceq]; rfl, by rw [← h.2, ← hceq]; rfl, ?_⟩
        intro d hd
        have hdt : mkTok snaps category d ∈
            (creds.filter (fun c => !c.revoked)).map (mkTok snaps category) :=
          List.mem_map.2 ⟨d, hd, rfl⟩
        have := hopt _ hdt
        rw [Bool.eq_false_iff] at this
        have hni : ¬ ((mkTok snaps category d).remaining = ch.remaining ∧
            (mkTok snaps category d).reset < ch.reset) ∧
            ¬ (ch.remaining < (mkTok snaps category d).remaining) := by
          constructor
          · intro hcontra; exact this (tokLess_iff.2 (Or.inl hcontra))
          · intro hcontra; exact this (tokLess_iff.2 (Or.inr hcontra))
        rw [← hceq] at hni
        simp only [mkTok] at hni ⊢
        omega

theorem C5_amended_choose_token_witness :
    ([credA, credB].filter (fun c => !c.revoked) ≠ []) ∧
    ∃ c ∈ [credA, credB].filter (fun c => !c.revoked), c.id = "A" ∧ c.token = "ta" ∧
      ∀ d ∈ [credA, credB].filter (fun c => !c.revoked),
        (snapOf snapsCx d.id "core").1 < (snapOf snapsCx c.id "core").1 ∨
        ((snapOf snapsCx d.id "core").1 = (snapOf snapsCx c.id "core").1 ∧
         (snapOf snapsCx c.id "core").2 ≤ (snapOf snapsCx d.id "core").2) := by
  refine ⟨by decide, ?_⟩
  exact (C5_amended_choose_token [credA, credB] snapsCx "core").2 "A" "ta" (by rfl)

/-! ## Upstream client revocation theorems -/

theorem revokeCred_id_revoked (creds : List Cred) (id : String) :
    ∀ c ∈ revokeCred creds id, c.id = id → c.revoked = true := by
  intro c hc hid
  rcases List.mem_map.1 hc with ⟨c0, hc0, heq⟩
  by_cases h0 : c0.id == id
  · rw [if_pos h0] at heq
    rw [← heq]
  · rw [if_neg h0] at heq
    subst heq
    exact absurd (beq_iff_eq.2 hid) h0

/-- C6: when a credential was chosen and the upstream answers `401`, or
`403` with a JSON `message` containing (case-insensitively)
"bad credentials", `Client.Do` marks that credential revoked — after which
the selector, which lists only non-revoked credentials, can never return
its id again — while still handing the upstream status, headers and body
back to the caller; an upstream `403` without that message leaves the
credential pool untouched. -/
theorem C6_revocation_semantics (creds : List Cred) (snaps : SnapStore)
    (category : String) (resp : UpResp) (parseMsg : List Nat → String)
    (chId chTok : String)
    (hch : chooseToken creds snaps category = Except.ok (chId, chTok)) :
    ((clientDo creds snaps category resp parseMsg).status = resp.status ∧
     (clientDo creds snaps category resp parseMsg).respHeaders = resp.headers ∧
     (clientDo creds snaps category resp parseMsg).respBody = resp.body) ∧
    ((resp.status = 401 ∨ (resp.status = 403 ∧
        strContains (strToLower (parseMsg resp.body)) "bad credentials" = true)) →
      (∀ c ∈ (clientDo creds snaps category resp parseMsg).newCreds,
        c.id = chId → c.revoked = true) ∧
      (∀ id2 tok2, chooseToken (clientDo creds snaps category resp parseMsg).newCreds
          snaps category = Except.ok (id2, tok2) → id2 ≠ chId)) ∧
    ((resp.status = 403 ∧
        strContains (strToLower (parseMsg resp.body)) "bad credentials" = false) →
      (clientDo creds snaps category resp parseMsg).newCreds = creds) := by
  have hrev : ∀ hr : shouldRevoke resp.status (parseMsg resp.body) = true,
      (∀ c ∈ revokeCred creds chId, c.id = chId → c.revoked = true) ∧
      (∀ id2 tok2, chooseToken (revokeCred creds chId) snaps category =
          Except.ok (id2, tok2) → id2 ≠ chId) := by
    intro _
    refine ⟨revokeCred_id_revoked creds chId, ?_⟩
    intro id2 tok2 h2 heq
    obtain ⟨c, hc, hcid, -⟩ := chooseToken_ok_mem _ snaps category id2 tok2 h2
    have hcrev : c.revoked = false := by
      have := List.of_mem_filter hc
      simpa using this
    have : c.revoked = true :=
      revokeCred_id_revoked creds chId c (List.mem_of_mem_filter hc) (heq ▸ hcid)
    rw [hcrev] at this; cases this
  simp only [clientDo, hch]
  by_cases h41 : resp.status == 401 || resp.status == 403
  · rw [if_pos h41]
    by_cases hsr : shouldRevoke resp.status (parseMsg resp.body) = true
    · rw [if_pos hsr]
      refine ⟨⟨rfl, rfl, rfl⟩, fun _ => hrev hsr, ?_⟩
      rintro ⟨h403, hnc⟩
      simp only [shouldRevoke, h403] at hsr
      rw [hnc] at hsr
      simp at hsr
    · rw [if_neg hsr]
      refine ⟨⟨rfl, rfl, rfl⟩, ?_, fun _ => rfl⟩
      rintro (h401 | ⟨h403, hbc⟩)
      · exact absurd (by simp [shouldRevoke, h401]) hsr
      · exact absurd (by simp [shouldRevoke, h403, hbc]) hsr
  · rw [if_neg h41]
    refine ⟨⟨rfl, rfl, rfl⟩, ?_, ?_⟩
    · rintro (h401 | ⟨h403, -⟩)
      · exact absurd (by simp [h401]) h41
      · exact absurd (by simp [h403]) h41
    · rintro ⟨h403, -⟩
      exact absurd (by simp [h403]) h41

theorem C6_revocation_semantics_witness :
    ((clientDo [credA] snapsCx "core" (UpResp.mk 401 [] []) (fun _ => "")).status = 401 ∧
     (clientDo [credA] snapsCx "core" (UpResp.mk 401 [] []) (fun _ => "")).respHeaders = [] ∧
     (clientDo [credA] snapsCx "core" (UpResp.mk 401 [] []) (fun _ => "")).respBody = []) ∧
    ((∀ c ∈ (clientDo [credA] snapsCx "core" (UpResp.mk 401 [] []) (fun _ => "")).newCreds,
        c.id = "A" → c.revoked = true) ∧
     (∀ id2 tok2, chooseToken (clientDo [credA] snapsCx "core"
          (UpResp.mk 401 [] []) (fun _ => "")).newCreds snapsCx "core" =
          Except.ok (id2, tok2) → id2 ≠ "A")) := by
  have h := C6_revocation_semantics [credA] snapsCx "core" (UpResp.mk 401 [] [])
    (fun _ => "") "A" "ta" (by rfl)
  exact ⟨h.1, h.2.1 (Or.inl rfl)⟩

/-! ## Pipeline theorems -/

theorem rlAllow_true_perSec_pos {bs : Buckets} {key : String} {perSec : Int}
    {now : ℚ} (h : (rlAllow bs key perSec now).1 = true) : 0 < perSec := by
  by_contra hle
  rw [not_lt] at hle
  rw [rlAllow, if_pos hle] at h
  cases h

theorem rlAllow_nonpos {bs : Buckets} {key : String} {perSec : Int} {now : ℚ}
    (h : perSec ≤ 0) : rlAllow bs key perSec now = (false, bs) := by
  rw [rlAllow, if_pos h]

/-- C1 (amended): `serveProxy` responds 401 when the trimmed `X-API-Key` is
empty; 403 when the key's hash is found and the stored row is disabled;
and 429 when the rate limiter denies — which includes every key whose hash
is absent from the store, because the ignored row-scan error leaves
`perSec = 0` and the limiter always denies non-positive rates. (The claim's
"403 when the hash is not found" does not hold; see the counterexample.)
Each of these error responses is an `errOut`, which carries that status,
makes no upstream call, writes no cache row, and leaves the cache
unchanged. -/
theorem C1_amended_auth_error_paths (env : ProxyEnv) (req : ProxyReq)
    (target : String) :
    (parseAPIKey req.xApiKey = "" →
      serveProxy env req target = errOut env env.buckets 401) ∧
    (parseAPIKey req.xApiKey ≠ "" →
      (scanKeyRow env.keys (env.hashStr (parseAPIKey req.xApiKey))).1 = true →
      serveProxy env req target = errOut env env.buckets 403) ∧
    (parseAPIKey req.xApiKey ≠ "" →
      (scanKeyRow env.keys (env.hashStr (parseAPIKey req.xApiKey))).1 = false →
      (rlAllow env.buckets (env.hashStr (parseAPIKey req.xApiKey))
        (scanKeyRow env.keys (env.hashStr (parseAPIKey req.xApiKey))).2 env.now).1 = false →
      serveProxy env req target = errOut env
        (rlAllow env.buckets (env.hashStr (parseAPIKey req.xApiKey))
          (scanKeyRow env.keys (env.hashStr (parseAPIKey req.xApiKey))).2 env.now).2 429) ∧
    (parseAPIKey req.xApiKey ≠ "" →
      env.keys (env.hashStr (parseAPIKey req.xApiKey)) = none →
      serveProxy env req target = errOut env env.buckets 429) ∧
    (∀ bs code, (errOut env bs code).status = code ∧
      (errOut env bs code).upstreamCalled = false ∧
      (errOut env bs code).cacheWrote = false ∧
      (errOut env bs code).cache = env.cache) := by
  refine ⟨?_, ?_, ?_, ?_, fun bs code => ⟨rfl, rfl, rfl, rfl⟩⟩
  · intro hempty
    unfold serveProxy
    rw [if_pos (by simp [hempty])]
  · intro hne hdis
    unfold serveProxy
    dsimp only
    rw [if_neg (by simpa using hne), if_pos hdis]
  · intro hne hdis hdeny
    unfold serveProxy
    dsimp only
    rw [if_neg (by simpa using hne), if_neg (by simp [hdis]),
      if_pos (by simp [hdeny])]
  · intro hne hnone
    have hscan : scanKeyRow env.keys (env.hashStr (parseAPIKey req.xApiKey)) = (false, 0) := by
      rw [scanKeyRow, hnone]
    have hallow := @rlAllow_nonpos env.buckets
      (env.hashStr (parseAPIKey req.xApiKey)) 0 env.now (le_refl (0 : Int))
    unfold serveProxy
    dsimp only
    rw [if_neg (by simpa using hne), if_neg (by simp [hscan]), hscan]
    rw [hallow]
    simp

/-- Concrete fixtures for the pipeline evaluations. -/
def keyRowOk : KeyRow :=
  { disabled := false, perSec := 10, hcUsername := "hc", appName := "app",
    machine := "m", keyHint := "h1" }

def keysOne : KeyStore := fun h => if h == "k" then some keyRowOk else none

/-- An upstream answer that tries to smuggle a spoofed debug header and a
cookie across the proxy. -/
def upstream200 : UpResp :=
  { status := 200
    headers := [("X-Gh-Proxy-Cache", ["spoofed"]), ("Set-Cookie", ["sid=1"])]
    body := [42] }

def envStd : ProxyEnv :=
  { cfg := { maxProxyBodyBytes := 4, maxCacheTime := 300 }
    keys := keysOne
    buckets := []
    cache := { rows := [], nextId := 1 }
    creds := [credA]
    snaps := snapsCx
    now := 0
    upstream := upstream200
    hashStr := fun s => s
    hashBytes := fun l => toString l.length
    parseMsg := fun _ => "" }

/-- The same environment with an empty key store. -/
def envNoKeys : ProxyEnv :=
  { envStd with keys := fun _ => none }

def reqGET : ProxyReq :=
  { method := "GET", xApiKey := "k", contentLength := 0, wireBody := [],
    rawQuery := "" }

/-- C1 counterexample: with the key store empty, a request carrying the
unknown key "k" is answered 429 (the limiter denies the zero rate left by
the ignored scan error), not 403 as the claim states for a hash that is
not found. -/
theorem C1_counterexample_unknown_key_is_429 :
    (serveProxy envNoKeys reqGET "https://api.github.com/x").status = 429 ∧
    ¬ (serveProxy envNoKeys reqGET "https://api.github.com/x").status = 403 := by
  refine ⟨by rfl, ?_⟩
  intro h
  rw [show (serveProxy envNoKeys reqGET "https://api.github.com/x").status = 429 from rfl] at h
  cases h

theorem C1_amended_auth_error_paths_witness :
    (parseAPIKey " " = "" ∧
      serveProxy envStd { reqGET with xApiKey := " " } "https://api.github.com/x" =
        errOut envStd envStd.buckets 401) ∧
    (parseAPIKey "k" ≠ "" ∧ envNoKeys.keys (envNoKeys.hashStr (parseAPIKey "k")) = none ∧
      serveProxy envNoKeys reqGET "https://api.github.com/x" =
        errOut envNoKeys envNoKeys.buckets 429) := by
  constructor
  · exact ⟨by rfl,
      (C1_amended_auth_error_paths envStd { reqGET with xApiKey := " " }
        "https://api.github.com/x").1 (by rfl)⟩
  · exact ⟨by decide, by rfl,
      ((C1_amended_auth_error_paths envNoKeys reqGET
        "https://api.github.com/x").2.2.2).1 (by decide) (by rfl)⟩

/-! ## Header map lemmas for the debug-header theorem -/

theorem headerKeyEq_iff {a b : String} :
    headerKeyEq a b = true ↔ strToLower a = strToLower b := by
  simp [headerKeyEq]

theorem headerGetValues_headerSet_self (h : Headers) (k v : String) :
    headerGetValues (headerSet h k v) k = [v] := by
  unfold headerGetValues headerSet
  rw [List.filter_append]
  have h1 : List.filter (fun p => headerKeyEq p.1 k)
      (List.filter (fun p => !headerKeyEq p.1 k) h) = [] := by
    rw [List.filter_filter]
    apply List.filter_eq_nil_iff.2
    intro p _
    simp
  have h2 : List.filter (fun p => headerKeyEq p.1 k) [(k, [v])] = [(k, [v])] := by
    simp [headerKeyEq]
  rw [h1, h2]
  simp

theorem headerGetValues_headerSet_other (h : Headers) (k v k' : String)
    (hne : headerKeyEq k k' = false) :
    headerGetValues (headerSet h k v) k' = headerGetValues h k' := by
  unfold headerGetValues headerSet
  rw [List.filter_append]
  have h2 : List.filter (fun p => headerKeyEq p.1 k') [(k, [v])] = [] := by
    simp [hne]
  have h1 : List.filter (fun p => headerKeyEq p.1 k')
      (List.filter (fun p => !headerKeyEq p.1 k) h) =
      List.filter (fun p => headerKeyEq p.1 k') h := by
    rw [List.filter_filter]
    apply List.filter_congr
    intro p _
    by_cases hp : headerKeyEq p.1 k' = true
    · have hpk : headerKeyEq p.1 k = false := by
        rw [Bool.eq_false_iff]
        intro hk
        rw [headerKeyEq_iff] at hp hk
        have : headerKeyEq k k' = true := headerKeyEq_iff.2 (hk ▸ hp)
        rw [hne] at this; cases this
      simp [hp, hpk]
    · simp [Bool.eq_false_iff.2 hp]
  rw [h1, h2]
  simp

theorem formatKeyDisplay_ne_empty (hc app machine hint : String) :
    formatKeyDisplay hc app machine hint ≠ "" := by
  unfold formatKeyDisplay
  have hu : ("_" : String).length = 1 := rfl
  have h0 : ("" : String).length = 0 := rfl
  split
  · intro h
    have := congrArg String.length h
    simp only [String.length_append, hu, h0] at this
    omega
  · intro h
    have := congrArg String.length h
    simp only [String.length_append, hu, h0] at this
    omega

/-! ## Pipeline shape and upstream-call lemmas -/

/-- Every `serveProxy` run is either an `http.Error` early exit or the
cache-and-fetch tail reached with the scanned row not disabled and the
rate limiter admitting. -/
theorem serveProxy_shape (env : ProxyEnv) (req : ProxyReq) (target : String) :
    (∃ code bs2, serveProxy env req target = errOut env bs2 code) ∨
    (parseAPIKey req.xApiKey ≠ "" ∧
     (scanKeyRow env.keys (env.hashStr (parseAPIKey req.xApiKey))).1 = false ∧
     (rlAllow env.buckets (env.hashStr (parseAPIKey req.xApiKey))
        (scanKeyRow env.keys (env.hashStr (parseAPIKey req.xApiKey))).2 env.now).1 = true ∧
     serveProxy env req target =
       proxyCacheAndFetch env req target (env.hashStr (parseAPIKey req.xApiKey))
         (rlAllow env.buckets (env.hashStr (parseAPIKey req.xApiKey))
           (scanKeyRow env.keys (env.hashStr (parseAPIKey req.xApiKey))).2 env.now).2
         (bodyRead env req)) := by
  unfold serveProxy
  dsimp only
  split
  · exact Or.inl ⟨401, env.buckets, rfl⟩
  · rename_i hk
    split
    · exact Or.inl ⟨403, env.buckets, rfl⟩
    · rename_i hd
      split
      · exact Or.inl ⟨429, _, rfl⟩
      · rename_i ha
        split
        · exact Or.inl ⟨413, _, rfl⟩
        · refine Or.inr ⟨by simpa using hk, by simpa using hd, ?_, rfl⟩
          rcases hb : (rlAllow env.buckets (env.hashStr (parseAPIKey req.xApiKey))
              (scanKeyRow env.keys (env.hashStr (parseAPIKey req.xApiKey))).2 env.now).1
          · rw [hb] at ha; simp at ha
          · rfl

theorem clientDo_httpCalled_fields (creds : List Cred) (snaps : SnapStore)
    (category : String) (resp : UpResp) (parseMsg : List Nat → String)
    (h : (clientDo creds snaps category resp parseMsg).httpCalled = true) :
    (clientDo creds snaps category resp parseMsg).status = resp.status ∧
    (clientDo creds snaps category resp parseMsg).respHeaders = resp.headers ∧
    (clientDo creds snaps category resp parseMsg).respBody = resp.body := by
  unfold clientDo
  cases hch : chooseToken creds snaps category with
  | error e =>
    exfalso
    unfold clientDo at h
    rw [hch] at h
    simp at h
  | ok p =>
    cases p with
    | mk id tok =>
      dsimp only
      split
      · split
        · exact ⟨rfl, rfl, rfl⟩
        · exact ⟨rfl, rfl, rfl⟩
      · exact ⟨rfl, rfl, rfl⟩

/-- C4: whenever the pipeline called the upstream (cache miss path), a
cache row is written iff the request method is GET or HEAD, the upstream
status is 200, and the upstream `Cache-Control` value (lower-cased before
the check) contains neither "no-cache" nor "no-store"; in particular under
`Cache-Control: no-store` nothing is written and the cache state is
unchanged, so an identical repeat request misses again. -/
theorem C4_cache_store_iff (env : ProxyEnv) (req : ProxyReq) (target : String)
    (hcall : (serveProxy env req target).upstreamCalled = true) :
    ((serveProxy env req target).cacheWrote = true ↔
      ((req.method == "GET" || req.method == "HEAD") = true ∧
        env.upstream.status = 200 ∧
        strContains (strToLower (headerGet env.upstream.headers "Cache-Control"))
          "no-cache" = false ∧
        strContains (strToLower (headerGet env.upstream.headers "Cache-Control"))
          "no-store" = false)) ∧
    (strContains (strToLower (headerGet env.upstream.headers "Cache-Control"))
        "no-store" = true →
      (serveProxy env req target).cacheWrote = false ∧
      (serveProxy env req target).cache = env.cache) := by
  rcases serveProxy_shape env req target with ⟨code, bs2, heq⟩ | ⟨-, -, -, heq⟩
  · rw [heq] at hcall; simp [errOut] at hcall
  · rw [heq] at hcall ⊢
    unfold proxyCacheAndFetch at hcall ⊢
    dsimp only at hcall ⊢
    rcases hhit : (if (req.method == "GET" || req.method == "HEAD") = true then
        cacheGetBody env.hashBytes env.cache.rows req.method
          (targetWithQuery target req.rawQuery) (bodyRead env req) env.now
      else none) with _ | row
    · rw [hhit] at hcall
      dsimp only at hcall ⊢
      obtain ⟨hs, hh, -⟩ := clientDo_httpCalled_fields _ _ _ _ _ hcall
      rw [hs, hh]
      constructor
      · simp only [Bool.and_eq_true, beq_iff_eq, Bool.not_eq_true']
        tauto
      · intro hns
        constructor
        · simp [hns]
        · rw [if_neg (by simp [hns])]
    · rw [hhit] at hcall
      dsimp only at hcall
      cases hcall

theorem C4_cache_store_iff_witness :
    (serveProxy envStd reqGET "https://api.github.com/x").upstreamCalled = true ∧
    ((serveProxy envStd reqGET "https://api.github.com/x").cacheWrote = true ↔
      ((reqGET.method == "GET" || reqGET.method == "HEAD") = true ∧
        envStd.upstream.status = 200 ∧
        strContains (strToLower (headerGet envStd.upstream.headers "Cache-Control"))
          "no-cache" = false ∧
        strContains (strToLower (headerGet envStd.upstream.headers "Cache-Control"))
          "no-store" = false)) := by
  have hcall : (serveProxy envStd reqGET "https://api.github.com/x").upstreamCalled = true := by
    with_unfolding_all rfl
  exact ⟨hcall, (C4_cache_store_iff envStd reqGET "https://api.github.com/x" hcall).1⟩

/-- C2 requests: an over-long body with no declared length (chunked), an
over-long body with a declared length, and a body of exactly the cap. -/
def reqOverUndeclared : ProxyReq :=
  { method := "POST", xApiKey := "k", contentLength := -1,
    wireBody := [1, 2, 3, 4, 5], rawQuery := "" }

def reqOverDeclared : ProxyReq :=
  { method := "POST", xApiKey := "k", contentLength := 5,
    wireBody := [1, 2, 3, 4, 5], rawQuery := "" }

def reqExactCap : ProxyReq :=
  { method := "POST", xApiKey := "k", contentLength := 4,
    wireBody := [1, 2, 3, 4], rawQuery := "" }

/-- C2 is a code bug: with the cap at 4 bytes, a declared content length of
5 is answered 413 before the body is read and an exactly-4-byte body is
accepted, as claimed; but a 5-byte body with no declared length
(`ContentLength = -1`, e.g. chunked) is NOT answered 413 — the source
discards the `MaxBytesReader` error from `io.ReadAll`, truncates the body
to the cap (`bodyRead`), calls the upstream and returns its status. -/
theorem C2_bug_oversized_undeclared_body_not_413 :
    (serveProxy envStd reqOverDeclared "https://api.github.com/x").status = 413 ∧
    (serveProxy envStd reqExactCap "https://api.github.com/x").status = 200 ∧
    reqOverUndeclared.wireBody.length = 5 ∧ envStd.cfg.maxProxyBodyBytes = 4 ∧
    (serveProxy envStd reqOverUndeclared "https://api.github.com/x").status = 200 ∧
    (serveProxy envStd reqOverUndeclared "https://api.github.com/x").upstreamCalled = true ∧
    bodyRead envStd reqOverUndeclared = [1, 2, 3, 4] ∧
    ¬ (serveProxy envStd reqOverUndeclared "https://api.github.com/x").status = 413 := by
  refine ⟨by with_unfolding_all rfl, by with_unfolding_all rfl, by rfl, by rfl,
    by with_unfolding_all rfl, by with_unfolding_all rfl, by rfl, ?_⟩
  intro h
  rw [show (serveProxy envStd reqOverUndeclared "https://api.github.com/x").status = 200 by
    with_unfolding_all rfl] at h
  cases h

/-- C10: whenever `serveProxy` emits a proxied response (cache hit or
miss, i.e. every non-error path), the debug headers are `Set` after the
stored/upstream headers were copied, so the full value list under each of
the three names is the single proxy-written value — any same-named header
coming from the upstream or the cache has been replaced and cannot reach
the client. `X-Gh-Proxy-Cache` is exactly "hit" on the cache-served path
and exactly "miss" otherwise; `X-Gh-Proxy-Category` is the category of the
canonicalised target; `X-Gh-Proxy-Client` is the (necessarily non-empty)
display of the authenticated key's row. -/
theorem C10_debug_headers_overwrite (env : ProxyEnv) (req : ProxyReq)
    (target : String)
    (hnotearly : (serveProxy env req target).early = false) :
    ((serveProxy env req target).servedFromCache = true →
      headerGetValues (serveProxy env req target).headers "X-Gh-Proxy-Cache" = ["hit"]) ∧
    ((serveProxy env req target).servedFromCache = false →
      headerGetValues (serveProxy env req target).headers "X-Gh-Proxy-Cache" = ["miss"]) ∧
    headerGetValues (serveProxy env req target).headers "X-Gh-Proxy-Category" =
      [ghCategory (targetWithQuery target req.rawQuery)] ∧
    ∃ d, d ≠ "" ∧
      headerGetValues (serveProxy env req target).headers "X-Gh-Proxy-Client" = [d] := by
  rcases serveProxy_shape env req target with ⟨code, bs2, heq⟩ | ⟨-, -, hab, heq⟩
  · rw [heq] at hnotearly; simp [errOut] at hnotearly
  · have hpos := rlAllow_true_perSec_pos hab
    rcases hrow : env.keys (env.hashStr (parseAPIKey req.xApiKey)) with _ | r
    · exfalso
      unfold scanKeyRow at hpos
      rw [hrow] at hpos
      simp at hpos
    · have hdisp : lookupClientDisplay env.keys (env.hashStr (parseAPIKey req.xApiKey)) ≠ "" := by
        unfold lookupClientDisplay
        rw [hrow]
        exact formatKeyDisplay_ne_empty _ _ _ _
      have hdispb : (lookupClientDisplay env.keys (env.hashStr (parseAPIKey req.xApiKey)) != "")
          = true := by
        simp [hdisp]
      rw [heq]
      unfold proxyCacheAndFetch
      dsimp only
      rcases hhit : (if (req.method == "GET" || req.method == "HEAD") = true then
          cacheGetBody env.hashBytes env.cache.rows req.method
            (targetWithQuery target req.rawQuery) (bodyRead env req) env.now
        else none) with _ | row
      · -- miss path
        dsimp only
        rw [if_pos hdispb]
        split
        · refine ⟨?_, ?_, ?_, ?_⟩
          · intro h; cases h
          · intro _
            rw [headerGetValues_headerSet_other _ _ _ _ (by decide),
              headerGetValues_headerSet_other _ _ _ _ (by decide),
              headerGetValues_headerSet_other _ _ _ _ (by decide),
              headerGetValues_headerSet_self]
          · rw [headerGetValues_headerSet_other _ _ _ _ (by decide),
              headerGetValues_headerSet_other _ _ _ _ (by decide),
              headerGetValues_headerSet_self]
          · refine ⟨_, hdisp, ?_⟩
            rw [headerGetValues_headerSet_other _ _ _ _ (by decide),
              headerGetValues_headerSet_self]
        · refine ⟨?_, ?_, ?_, ?_⟩
          · intro h; cases h
          · intro _
            rw [headerGetValues_headerSet_other _ _ _ _ (by decide),
              headerGetValues_headerSet_other _ _ _ _ (by decide),
              headerGetValues_headerSet_self]
          · rw [headerGetValues_headerSet_other _ _ _ _ (by decide),
              headerGetValues_headerSet_self]
          · refine ⟨_, hdisp, ?_⟩
            rw [headerGetValues_headerSet_self]
      · -- hit path
        dsimp only
        rw [if_pos hdispb]
        refine ⟨?_, ?_, ?_, ?_⟩
        · intro _
          rw [headerGetValues_headerSet_other _ _ _ _ (by decide),
            headerGetValues_headerSet_other _ _ _ _ (by decide),
            headerGetValues_headerSet_self]
        · intro h; cases h
        · rw [headerGetValues_headerSet_other _ _ _ _ (by decide),
            headerGetValues_headerSet_self]
        · refine ⟨_, hdisp, ?_⟩
          rw [headerGetValues_headerSet_self]

theorem C10_debug_headers_overwrite_witness :
    (serveProxy envStd reqGET "https://api.github.com/x").early = false ∧
    ((serveProxy envStd reqGET "https://api.github.com/x").servedFromCache = false →
      headerGetValues (serveProxy envStd reqGET "https://api.github.com/x").headers
        "X-Gh-Proxy-Cache" = ["miss"]) ∧
    headerGetValues (serveProxy envStd reqGET "https://api.github.com/x").headers
      "X-Gh-Proxy-Category" = [ghCategory (targetWithQuery "https://api.github.com/x" "")] ∧
    ∃ d, d ≠ "" ∧
      headerGetValues (serveProxy envStd reqGET "https://api.github.com/x").headers
        "X-Gh-Proxy-Client" = [d] := by
  have hne : (serveProxy envStd reqGET "https://api.github.com/x").early = false := by
    with_unfolding_all rfl
  have h := C10_debug_headers_overwrite envStd reqGET "https://api.github.com/x" hne
  exact ⟨hne, h.2.1, h.2.2.1, h.2.2.2⟩

theorem C7_response_headers_filtered_witness :
    (("Content-Type", ["text/plain; charset=utf-8"]) ∈
      (serveProxy envNoKeys reqGET "https://api.github.com/x").headers) ∧
    isHopByHop "Content-Type" = false ∧
    isBlockedResponseHeader "Content-Type" = false := by
  have hmem : ("Content-Type", ["text/plain; charset=utf-8"]) ∈
      (serveProxy envNoKeys reqGET "https://api.github.com/x").headers := by decide
  have h := C7_response_headers_filtered envNoKeys reqGET "https://api.github.com/x"
    ("Content-Type", ["text/plain; charset=utf-8"]) hmem
  exact ⟨hmem, h⟩

end GhProxy
